import Mathlib

/-!
Shallow embedding of the `loggable` ESP32 log-distribution component
(`include/loggable.hpp`, `include/loggable_ringbuffer.hpp`, `src/loggable.cpp`,
`src/loggable_os.cpp`) together with proofs about its dispatch filter, sink
registry, drop-oldest ring buffer, native-log-hook adapter and engine
lifecycle.  Machine strings are modelled as `List Char`; timestamps as `Nat`.
-/

namespace Loggable

/-- Severity levels, mirroring `enum class LogLevel : uint8_t` in
`include/loggable.hpp` (declaration order None, Error, Warning, Info,
Debug, Verbose). -/
inductive LogLevel where
  | none
  | error
  | warning
  | info
  | debug
  | verbose
deriving DecidableEq, Repr

/-- The underlying integer of the `LogLevel` enumerator (C++ compares the
underlying `uint8_t` values of the enum). -/
def LogLevel.toNat : LogLevel → Nat
  | .none => 0
  | .error => 1
  | .warning => 2
  | .info => 3
  | .debug => 4
  | .verbose => 5

/-- Function `is_log_level_enabled` from `include/loggable.hpp`:
`message_level <= global_level` on the underlying enum values. -/
def is_log_level_enabled (message_level global_level : LogLevel) : Bool :=
  decide (message_level.toNat ≤ global_level.toNat)

/-- A log record (`LogMessage` in `include/loggable.hpp`): timestamp,
level, tag, message text.  The C++ default constructor produces
timestamp `{}`, level `None` and empty strings. -/
structure LogMessage where
  timestamp : Nat
  level : LogLevel
  tag : List Char
  message : List Char
deriving DecidableEq, Repr

instance : Inhabited LogMessage := ⟨⟨0, .none, [], []⟩⟩

/-- Identity of a registered sink object (a `shared_ptr<ISink>` target). -/
abbrev SinkId := Nat

/-- Registry plus threshold state of the `Sinker` hub: the atomic
`_global_level` and the `_sinkers` vector.  A `none` entry models a null
`shared_ptr` stored in the vector. -/
structure SinkerState where
  global_level : LogLevel
  sinkers : List (Option SinkId)
deriving DecidableEq, Repr

/-- State of a freshly constructed hub: `_global_level{LogLevel::Info}` and
an empty sink vector (`include/loggable.hpp`). -/
def initialSinker : SinkerState := { global_level := .info, sinkers := [] }

/-- Method `Sinker::get_level`. -/
def get_level (st : SinkerState) : LogLevel := st.global_level

/-- Method `Sinker::set_level`. -/
def set_level (st : SinkerState) (level : LogLevel) : SinkerState :=
  { st with global_level := level }

/-- Method `Sinker::add_sinker`: appends the pointer to `_sinkers` when it is
non-null, otherwise does nothing. -/
def add_sinker (st : SinkerState) (s : Option SinkId) : SinkerState :=
  if s.isSome then { st with sinkers := st.sinkers ++ [s] } else st

/-- Method `Sinker::remove_sinker`: `std::erase(_sinkers, sinker)` removes every
entry equal to the given pointer; null input is ignored. -/
def remove_sinker (st : SinkerState) (s : Option SinkId) : SinkerState :=
  if s.isSome then { st with sinkers := st.sinkers.filter (fun x => x ≠ s) }
  else st

/-- The fan-out loop body of `Sinker::_dispatch_internal`: visit the
registered entries in order, delivering to each non-null one. -/
def consumeLoop : List (Option SinkId) → List SinkId
  | [] => []
  | Option.none :: rest => consumeLoop rest
  | Option.some s :: rest => s :: consumeLoop rest

/-- Method `Sinker::_dispatch_internal` (`src/loggable.cpp`): when the message
level passes `is_log_level_enabled` against `_global_level`, every
non-null registered sink consumes the message, in registration order;
otherwise nobody does.  The result is the ordered list of deliveries. -/
def dispatch_internal (st : SinkerState) (msg : LogMessage) : List SinkId :=
  if is_log_level_enabled msg.level st.global_level then consumeLoop st.sinkers
  else []

lemma consumeLoop_eq_filterMap (l : List (Option SinkId)) :
    consumeLoop l = l.filterMap id := by
  induction l with
  | nil => rfl
  | cons h t ih => cases h <;> simp [consumeLoop, ih]

lemma count_filterMap_id (l : List (Option SinkId)) (s : SinkId) :
    (l.filterMap id).count s = l.count (some s) := by
  induction l with
  | nil => rfl
  | cons h t ih =>
    cases h with
    | none => simp [List.count_cons, ih]
    | some a => simp [List.count_cons, ih]

lemma mem_consumeLoop {l : List (Option SinkId)} {s : SinkId} :
    s ∈ consumeLoop l ↔ some s ∈ l := by
  rw [consumeLoop_eq_filterMap]
  simp [List.mem_filterMap]

/-- Claim C1: for every severity `S`, threshold `T` and registry, a
dispatched message is delivered to every registered non-null sink entry
exactly once each, in registration order, iff `S ≤ T` on the enumeration
ordinals `None = 0 < Error < Warning < Info < Debug < Verbose`; when
`S > T` no sink receives it. -/
theorem dispatch_delivers_iff_enabled (S T : LogLevel)
    (sinkers : List (Option SinkId)) (ts : Nat) (tg m : List Char) :
    (dispatch_internal ⟨T, sinkers⟩ ⟨ts, S, tg, m⟩ =
      if S.toNat ≤ T.toNat then sinkers.filterMap id else []) ∧
    (∀ s : SinkId, (dispatch_internal ⟨T, sinkers⟩ ⟨ts, S, tg, m⟩).count s =
      if S.toNat ≤ T.toNat then sinkers.count (some s) else 0) ∧
    LogLevel.none.toNat = 0 ∧ LogLevel.error.toNat = 1 ∧
    LogLevel.warning.toNat = 2 ∧ LogLevel.info.toNat = 3 ∧
    LogLevel.debug.toNat = 4 ∧ LogLevel.verbose.toNat = 5 := by
  refine ⟨?_, ?_, rfl, rfl, rfl, rfl, rfl, rfl⟩
  · by_cases h : S.toNat ≤ T.toNat <;>
      simp [dispatch_internal, is_log_level_enabled, h, consumeLoop_eq_filterMap]
  · intro s
    by_cases h : S.toNat ≤ T.toNat <;>
      simp [dispatch_internal, is_log_level_enabled, h,
        consumeLoop_eq_filterMap, count_filterMap_id]

/-- Claim C5 counterexample: with the threshold set to `None`, a message
whose own severity is `None` is still delivered (`0 ≤ 0`), so "no sink
receives it" fails for severity `None`. -/
theorem threshold_none_cex :
    dispatch_internal ⟨LogLevel.none, [some 0]⟩ ⟨0, LogLevel.none, [], []⟩
      = [0] := by decide

/-- Claim C5 (amended): with the threshold set to `None`, every message of
severity `Error`, `Warning`, `Info`, `Debug` or `Verbose` is discarded —
no sink receives it; only a message whose severity is itself `None`
(ordinal 0) is still delivered. -/
theorem threshold_none_discards (S : LogLevel) (hS : S ≠ LogLevel.none)
    (sinkers : List (Option SinkId)) (ts : Nat) (tg m : List Char) :
    dispatch_internal ⟨LogLevel.none, sinkers⟩ ⟨ts, S, tg, m⟩ = [] := by
  cases S <;> simp_all [dispatch_internal, is_log_level_enabled, LogLevel.toNat]

/-- Witness for `threshold_none_discards` at severity `Error`. -/
theorem threshold_none_discards_witness :
    LogLevel.error ≠ LogLevel.none ∧
    dispatch_internal ⟨LogLevel.none, [some 0]⟩ ⟨0, LogLevel.error, [], []⟩
      = [] :=
  ⟨by decide, threshold_none_discards LogLevel.error (by decide) [some 0] 0 [] []⟩

/-- Claim C10: a freshly constructed hub has threshold `Info`, so by
default `Error`, `Warning` and `Info` messages are delivered to every
registered non-null sink while `Debug` and `Verbose` messages are not. -/
theorem default_level_info :
    get_level initialSinker = LogLevel.info ∧
    (∀ (sinkers : List (Option SinkId)) (ts : Nat) (tg m : List Char),
      dispatch_internal ⟨get_level initialSinker, sinkers⟩ ⟨ts, .error, tg, m⟩
          = sinkers.filterMap id ∧
      dispatch_internal ⟨get_level initialSinker, sinkers⟩ ⟨ts, .warning, tg, m⟩
          = sinkers.filterMap id ∧
      dispatch_internal ⟨get_level initialSinker, sinkers⟩ ⟨ts, .info, tg, m⟩
          = sinkers.filterMap id ∧
      dispatch_internal ⟨get_level initialSinker, sinkers⟩ ⟨ts, .debug, tg, m⟩
          = [] ∧
      dispatch_internal ⟨get_level initialSinker, sinkers⟩ ⟨ts, .verbose, tg, m⟩
          = []) := by
  refine ⟨rfl, fun sinkers ts tg m => ?_⟩
  refine ⟨?_, ?_, ?_, ?_, ?_⟩ <;>
    simp [dispatch_internal, is_log_level_enabled, LogLevel.toNat,
      initialSinker, get_level, consumeLoop_eq_filterMap]

/-- Claim C4 counterexample: if the sink is already registered, adding and
then removing it does not restore the registry — `remove_sinker` erases
every entry equal to the reference, including the pre-existing one. -/
theorem add_remove_not_identity_cex :
    remove_sinker (add_sinker ⟨LogLevel.info, [some 0]⟩ (some 0)) (some 0)
      ≠ ⟨LogLevel.info, [some 0]⟩ := by decide

/-- Claim C4 (amended): for a non-null sink reference not already present
in the registry, `add_sinker` followed by `remove_sinker` restores the
registry exactly; and regardless of the prior registry, after
`remove_sinker` a dispatched message is never delivered to that sink. -/
theorem add_remove_roundtrip (st : SinkerState) (a : SinkId)
    (hnot : some a ∉ st.sinkers) (st2 : SinkerState) (ts : Nat)
    (tg m : List Char) (S : LogLevel) :
    remove_sinker (add_sinker st (some a)) (some a) = st ∧
    a ∉ dispatch_internal (remove_sinker st2 (some a)) ⟨ts, S, tg, m⟩ := by
  constructor
  · simp only [add_sinker, remove_sinker, Option.isSome_some, if_true]
    cases st with
    | mk lvl sinkers =>
      simp only [SinkerState.mk.injEq, and_true, true_and]
      rw [List.filter_append]
      have h1 : List.filter (fun x => decide (x ≠ some a)) [some a] = [] := by
        simp
      rw [h1, List.append_nil]
      apply List.filter_eq_self.mpr
      intro x hx
      simp only [decide_eq_true_eq]
      intro hxa
      exact hnot (hxa ▸ hx)
  · intro hmem
    simp only [dispatch_internal] at hmem
    split at hmem
    · rw [mem_consumeLoop] at hmem
      simp only [remove_sinker, Option.isSome_some, if_true] at hmem
      rcases List.mem_filter.mp hmem with ⟨_, hdec⟩
      simp at hdec
    · exact List.not_mem_nil a hmem

/-- Witness for `add_remove_roundtrip` on a concrete registry. -/
theorem add_remove_roundtrip_witness :
    remove_sinker (add_sinker ⟨LogLevel.info, [some 1]⟩ (some 0)) (some 0)
        = ⟨LogLevel.info, [some 1]⟩ ∧
    0 ∉ dispatch_internal (remove_sinker ⟨LogLevel.info, [some 0, some 1]⟩
        (some 0)) ⟨0, LogLevel.error, [], []⟩ :=
  add_remove_roundtrip ⟨LogLevel.info, [some 1]⟩ 0 (by decide)
    ⟨LogLevel.info, [some 0, some 1]⟩ 0 [] [] LogLevel.error

/-! Drop-oldest ring buffer (`include/loggable_ringbuffer.hpp`).

The C++ `RingBuffer<T, Capacity>` stores a `std::array<T, Capacity>` with
`_head`, `_tail`, `_count` and an atomic `_dropped_count`.  The fixed
compile-time `Capacity` (asserted positive by `static_assert`) becomes the
`cap` field; the array becomes a `List` of that length.  The optional
semaphore backend only gates blocking in `pop` and never changes which
element is returned, so the embedding models the data path (the
no-backend configuration, where `pop` returns immediately when empty). -/

structure RingBuffer (M : Type) where
  cap : Nat
  buf : List M
  head : Nat
  tail : Nat
  count : Nat
  dropped_count : Nat
deriving DecidableEq, Repr

/-- A freshly constructed buffer: value-initialized `std::array`, all
indices and counters zero. -/
def mkRingBuffer (M : Type) [Inhabited M] (cap : Nat) : RingBuffer M :=
  ⟨cap, List.replicate cap default, 0, 0, 0, 0⟩

/-- Method `RingBuffer::push`: when full, advance `_tail`, decrement `_count` and
count a drop; then write at `_head`, advance `_head`, increment `_count`.
Returns the new state and the C++ return value `!dropped`. -/
def RingBuffer.push (rb : RingBuffer M) (item : M) : RingBuffer M × Bool :=
  let step :=
    if rb.count = rb.cap then
      ({ rb with tail := (rb.tail + 1) % rb.cap, count := rb.count - 1,
                 dropped_count := rb.dropped_count + 1 }, true)
    else (rb, false)
  let rb1 := step.1
  ({ rb1 with buf := rb1.buf.set rb1.head item,
              head := (rb1.head + 1) % rb1.cap,
              count := rb1.count + 1 }, !step.2)

/-- Method `RingBuffer::pop` (data path): empty yields `nullopt`; otherwise read
at `_tail`, advance `_tail`, decrement `_count`. -/
def RingBuffer.pop [Inhabited M] (rb : RingBuffer M) :
    Option M × RingBuffer M :=
  if rb.count = 0 then (none, rb)
  else (some (rb.buf.getD rb.tail default),
        { rb with tail := (rb.tail + 1) % rb.cap, count := rb.count - 1 })

/-- Repeatedly pop until the buffer reports empty; `rb.count` pops always
suffice because each successful pop decrements `_count` by one. -/
def RingBuffer.drainAux [Inhabited M] : Nat → RingBuffer M → List M
  | 0, _ => []
  | fuel + 1, rb =>
    match rb.pop with
    | (Option.none, _) => []
    | (Option.some x, rb2) => x :: RingBuffer.drainAux fuel rb2

/-- All still-present records, oldest first, as successive pops return
them. -/
def RingBuffer.drain [Inhabited M] (rb : RingBuffer M) : List M :=
  RingBuffer.drainAux rb.count rb

/-- Push a whole list in order, collecting the return value of each push. -/
def RingBuffer.pushAll (rb : RingBuffer M) : List M → RingBuffer M × List Bool
  | [] => (rb, [])
  | x :: xs =>
    let r1 := rb.push x
    let r2 := r1.1.pushAll xs
    (r2.1, r1.2 :: r2.2)

/-- Abstract (functional) effect of one push on the queue contents: drop
the oldest element first when the buffer is at capacity. -/
def modelPush (cap : Nat) (l : List M) (x : M) : List M :=
  if l.length = cap then l.drop 1 ++ [x] else l ++ [x]

/-- Number of pushes that found the buffer full along a push sequence. -/
def countFull (cap : Nat) : List M → List M → Nat
  | _, [] => 0
  | l, x :: xs => (if l.length = cap then 1 else 0) + countFull cap (modelPush cap l x) xs

/-- The boolean results of a push sequence (true when space was free). -/
def fullFlags (cap : Nat) : List M → List M → List Bool
  | _, [] => []
  | l, x :: xs => (!decide (l.length = cap)) :: fullFlags cap (modelPush cap l x) xs

/-- The last `n` elements of a list. -/
def lastN (n : Nat) (l : List M) : List M := l.drop (l.length - n)

/-- The buffer state `rb` holds exactly the queue `l`, oldest at `_tail`. -/
def RingBuffer.Represents [Inhabited M] (rb : RingBuffer M) (l : List M) : Prop :=
  rb.buf.length = rb.cap ∧ rb.tail < rb.cap ∧
  rb.head = (rb.tail + rb.count) % rb.cap ∧
  rb.count = l.length ∧ rb.count ≤ rb.cap ∧
  ∀ i, i < l.length → rb.buf.getD ((rb.tail + i) % rb.cap) default = l.getD i default

lemma getD_set_self {M : Type} (l : List M) (i : Nat) (v d : M)
    (h : i < l.length) : (l.set i v).getD i d = v := by
  rw [List.getD_eq_getElem?_getD, List.getElem?_set_self h]
  rfl

lemma getD_set_ne {M : Type} (l : List M) (i j : Nat) (v d : M)
    (h : i ≠ j) : (l.set i v).getD j d = l.getD j d := by
  rw [List.getD_eq_getElem?_getD, List.getElem?_set_ne h,
    ← List.getD_eq_getElem?_getD]

lemma getD_append_right_len {M : Type} (l l' : List M) (d : M) (i : Nat) :
    (l ++ l').getD (l.length + i) d = l'.getD i d := by
  rw [List.getD_eq_getElem?_getD, List.getElem?_append, if_neg (by omega),
    ← List.getD_eq_getElem?_getD]
  congr 1
  omega

lemma getD_drop {M : Type} (l : List M) (k i : Nat) (d : M) :
    (l.drop k).getD i d = l.getD (k + i) d := by
  rw [List.getD_eq_getElem?_getD, List.getElem?_drop,
    ← List.getD_eq_getElem?_getD]

lemma add_mod_inj {cap t i j : Nat} (hi : i < cap) (hj : j < cap)
    (h : (t + i) % cap = (t + j) % cap) : i = j := by
  have h2 : i ≡ j [MOD cap] := Nat.ModEq.add_left_cancel' t h
  have h3 : i % cap = j % cap := h2
  rwa [Nat.mod_eq_of_lt hi, Nat.mod_eq_of_lt hj] at h3

lemma RingBuffer.push_full_eq {M : Type} (rb : RingBuffer M) (x : M)
    (hfull : rb.count = rb.cap) :
    rb.push x = ({ cap := rb.cap, buf := rb.buf.set rb.head x,
                   head := (rb.head + 1) % rb.cap,
                   tail := (rb.tail + 1) % rb.cap,
                   count := rb.count - 1 + 1,
                   dropped_count := rb.dropped_count + 1 }, false) := by
  simp [RingBuffer.push, hfull]

lemma RingBuffer.push_notfull_eq {M : Type} (rb : RingBuffer M) (x : M)
    (hfull : rb.count ≠ rb.cap) :
    rb.push x = ({ rb with buf := rb.buf.set rb.head x,
                           head := (rb.head + 1) % rb.cap,
                           count := rb.count + 1 }, true) := by
  simp [RingBuffer.push, hfull]

lemma RingBuffer.push_spec {M : Type} [Inhabited M] (rb : RingBuffer M)
    (l : List M) (x : M) (inv : rb.Represents l) (hcap : 0 < rb.cap) :
    (rb.push x).1.Represents (modelPush rb.cap l x) ∧
    (rb.push x).2 = !decide (l.length = rb.cap) ∧
    (rb.push x).1.dropped_count =
      rb.dropped_count + (if l.length = rb.cap then 1 else 0) ∧
    (rb.push x).1.cap = rb.cap := by
  obtain ⟨hlen, htail, hhead, hcount, hle, hcont⟩ := inv
  by_cases hfull : rb.count = rb.cap
  · -- buffer full: oldest dropped, overwrite at old head slot
    have hlfull : l.length = rb.cap := by omega
    have hheadtail : rb.head = rb.tail := by
      rw [hhead, hfull, Nat.add_mod_right, Nat.mod_eq_of_lt htail]
    have hwrite : rb.head < rb.buf.length := by
      rw [hlen, hheadtail]; exact htail
    rw [RingBuffer.push_full_eq rb x hfull]
    unfold modelPush
    rw [if_pos hlfull]
    dsimp only
    refine ⟨⟨?_, Nat.mod_lt _ hcap, ?_, ?_, ?_, ?_⟩, ?_, ?_, rfl⟩
    · simp [List.length_set, hlen]
    · have hc1 : rb.count - 1 + 1 = rb.cap := by omega
      rw [hc1, hheadtail, Nat.mod_add_mod, Nat.add_mod_right]
    · simp only [List.length_append, List.length_drop, List.length_cons,
        List.length_nil]
      omega
    · show rb.count - 1 + 1 ≤ rb.cap
      omega
    · intro i hi
      simp only [List.length_append, List.length_drop, List.length_cons,
        List.length_nil] at hi
      have hi' : i < rb.cap := by omega
      rw [Nat.mod_add_mod]
      by_cases hlast : i = rb.cap - 1
      · -- the freshly written slot holds the new item
        have hcell : (rb.tail + 1 + i) % rb.cap = rb.head := by
          rw [hlast, hheadtail,
            show rb.tail + 1 + (rb.cap - 1) = rb.tail + rb.cap from by omega,
            Nat.add_mod_right, Nat.mod_eq_of_lt htail]
        have hdl : (l.drop 1).length = rb.cap - 1 := by
          rw [List.length_drop]; omega
        have hx : (l.drop 1 ++ [x]).getD (rb.cap - 1) default = x := by
          have h0 := getD_append_right_len (l.drop 1) [x] default 0
          rw [Nat.add_zero, List.getD_cons_zero] at h0
          rw [← hdl]
          exact h0
        rw [hcell, getD_set_self _ _ _ _ hwrite, hlast]
        exact hx.symm
      · -- untouched slots shift down by one position
        have h1i : 1 + i < rb.cap := by omega
        have hne : (rb.tail + 1 + i) % rb.cap ≠ rb.head := by
          rw [hheadtail]
          intro hc
          have h0 : (rb.tail + 0) % rb.cap = rb.tail := by
            rw [Nat.add_zero]; exact Nat.mod_eq_of_lt htail
          have hc' : (rb.tail + (1 + i)) % rb.cap = (rb.tail + 0) % rb.cap := by
            rw [h0, ← Nat.add_assoc]; exact hc
          have h2 := add_mod_inj h1i hcap hc'
          omega
        rw [getD_set_ne _ _ _ _ _ (fun hh => hne hh.symm),
          show rb.tail + 1 + i = rb.tail + (1 + i) from by omega,
          hcont (1 + i) (by omega), ← getD_drop]
        exact (List.getD_append _ _ _ _ (by rw [List.length_drop]; omega)).symm
    · simp [hlfull]
    · simp [hlfull]
  · -- buffer not full: plain append at the head slot
    have hlt : l.length < rb.cap := by omega
    have hwrite : rb.head < rb.buf.length := by
      rw [hlen, hhead]; exact Nat.mod_lt _ hcap
    rw [RingBuffer.push_notfull_eq rb x hfull]
    unfold modelPush
    rw [if_neg (Nat.ne_of_lt hlt)]
    dsimp only
    refine ⟨⟨?_, htail, ?_, ?_, ?_, ?_⟩, ?_, ?_, rfl⟩
    · simp [List.length_set, hlen]
    · rw [hhead, Nat.mod_add_mod]
      rfl
    · simp only [List.length_append, List.length_cons, List.length_nil]
      omega
    · show rb.count + 1 ≤ rb.cap
      omega
    · intro i hi
      simp only [List.length_append, List.length_cons, List.length_nil] at hi
      by_cases hlast : i = l.length
      · have hcell : (rb.tail + i) % rb.cap = rb.head := by
          rw [hlast, hhead, hcount]
        rw [hcell, getD_set_self _ _ _ _ hwrite, hlast]
        have h0 := getD_append_right_len l [x] default 0
        rw [Nat.add_zero, List.getD_cons_zero] at h0
        exact h0.symm
      · have hi' : i < l.length := by omega
        have hne : (rb.tail + i) % rb.cap ≠ rb.head := by
          rw [hhead, hcount]
          intro hc
          exact hlast (add_mod_inj (by omega) hlt hc)
        rw [getD_set_ne _ _ _ _ _ (fun hh => hne hh.symm), hcont i hi']
        exact (List.getD_append _ _ _ _ hi').symm
    · simp [Nat.ne_of_lt hlt]
    · simp [Nat.ne_of_lt hlt]

lemma RingBuffer.pop_cons {M : Type} [Inhabited M] (rb : RingBuffer M)
    (a : M) (l : List M) (inv : rb.Represents (a :: l)) :
    (rb.pop).1 = some a ∧ (rb.pop).2.Represents l ∧
    (rb.pop).2.count = rb.count - 1 := by
  obtain ⟨hlen, htail, hhead, hcount, hle, hcont⟩ := inv
  have hcap : 0 < rb.cap := by omega
  have hc1 : rb.count = l.length + 1 := by
    rw [hcount]; rfl
  have hne : rb.count ≠ 0 := by omega
  unfold RingBuffer.pop
  rw [if_neg hne]
  refine ⟨?_, ⟨hlen, Nat.mod_lt _ hcap, ?_, ?_, ?_, ?_⟩, rfl⟩
  · show some (rb.buf.getD rb.tail default) = some a
    have h0 := hcont 0 (by simp)
    rw [Nat.add_zero, Nat.mod_eq_of_lt htail, List.getD_cons_zero] at h0
    rw [h0]
  · show rb.head = ((rb.tail + 1) % rb.cap + (rb.count - 1)) % rb.cap
    rw [hhead, Nat.mod_add_mod]
    congr 1
    omega
  · show rb.count - 1 = l.length
    omega
  · show rb.count - 1 ≤ rb.cap
    omega
  · intro i hi
    show rb.buf.getD (((rb.tail + 1) % rb.cap + i) % rb.cap) default
      = l.getD i default
    rw [Nat.mod_add_mod, show rb.tail + 1 + i = rb.tail + (i + 1) from by omega,
      hcont (i + 1) (by simp; omega), List.getD_cons_succ]

lemma RingBuffer.pop_nil {M : Type} [Inhabited M] (rb : RingBuffer M)
    (inv : rb.Represents []) : rb.pop = (none, rb) := by
  have hc0 : rb.count = 0 := inv.2.2.2.1
  unfold RingBuffer.pop
  rw [if_pos hc0]

lemma RingBuffer.drain_eq {M : Type} [Inhabited M] :
    ∀ (l : List M) (rb : RingBuffer M), rb.Represents l → rb.drain = l := by
  intro l
  induction l with
  | nil =>
    intro rb inv
    have hc : rb.count = 0 := inv.2.2.2.1
    unfold RingBuffer.drain
    rw [hc]
    rfl
  | cons a t ih =>
    intro rb inv
    obtain ⟨hpop1, hrep2, hcnt2⟩ := RingBuffer.pop_cons rb a t inv
    have hc1 : rb.count = t.length + 1 := by
      rw [inv.2.2.2.1]; rfl
    have hd := ih _ hrep2
    unfold RingBuffer.drain at hd
    rw [hcnt2, hc1] at hd
    have hd' : RingBuffer.drainAux (t.length + 1 - 1) (rb.pop).2 = t := hd
    unfold RingBuffer.drain
    rw [hc1]
    show RingBuffer.drainAux (t.length + 1) rb = a :: t
    rcases hp : rb.pop with ⟨o, rb2⟩
    have ho : o = some a := by rw [hp] at hpop1; exact hpop1
    subst ho
    rw [hp] at hd'
    show (match rb.pop with
      | (Option.none, _) => []
      | (Option.some x, rb2) => x :: RingBuffer.drainAux t.length rb2) = a :: t
    rw [hp]
    show a :: RingBuffer.drainAux t.length rb2 = a :: t
    exact congrArg (a :: ·) hd'

lemma RingBuffer.pushAll_spec {M : Type} [Inhabited M] :
    ∀ (items : List M) (rb : RingBuffer M) (l : List M),
    rb.Represents l → 0 < rb.cap →
    (rb.pushAll items).1.Represents (List.foldl (modelPush rb.cap) l items) ∧
    (rb.pushAll items).1.cap = rb.cap ∧
    (rb.pushAll items).1.dropped_count =
      rb.dropped_count + countFull rb.cap l items ∧
    (rb.pushAll items).2 = fullFlags rb.cap l items := by
  intro items
  induction items with
  | nil =>
    intro rb l inv hcap
    exact ⟨inv, rfl, by simp [RingBuffer.pushAll, countFull],
      by simp [RingBuffer.pushAll, fullFlags]⟩
  | cons x xs ih =>
    intro rb l inv hcap
    obtain ⟨hrep, hflag, hdrop, hcap'⟩ := RingBuffer.push_spec rb l x inv hcap
    have hcappos : 0 < (rb.push x).1.cap := by rw [hcap']; exact hcap
    have ih' := ih (rb.push x).1 (modelPush rb.cap l x) hrep hcappos
    rw [hcap'] at ih'
    obtain ⟨ih1, ih2, ih3, ih4⟩ := ih'
    refine ⟨?_, ?_, ?_, ?_⟩
    · simp only [RingBuffer.pushAll, List.foldl_cons]
      exact ih1
    · simp only [RingBuffer.pushAll]
      exact ih2
    · simp only [RingBuffer.pushAll, countFull]
      rw [ih3, hdrop]
      omega
    · simp only [RingBuffer.pushAll, fullFlags]
      rw [ih4, hflag]

lemma modelPush_length_le {M : Type} {cap : Nat} (hcap : 0 < cap)
    (l : List M) (x : M) (h : l.length ≤ cap) :
    (modelPush cap l x).length ≤ cap := by
  unfold modelPush
  split <;> simp only [List.length_append, List.length_drop, List.length_cons,
    List.length_nil] <;> omega

lemma modelPush_length {M : Type} {cap : Nat} (hcap : 0 < cap)
    (l : List M) (x : M) (h : l.length ≤ cap) :
    (modelPush cap l x).length = min (l.length + 1) cap := by
  unfold modelPush
  split <;> simp only [List.length_append, List.length_drop, List.length_cons,
    List.length_nil] <;> omega

lemma lastN_of_le {M : Type} (n : Nat) (l : List M) (h : l.length ≤ n) :
    lastN n l = l := by
  unfold lastN
  rw [Nat.sub_eq_zero_of_le h, List.drop_zero]

lemma modelPush_eq_lastN {M : Type} {cap : Nat} (hcap : 0 < cap)
    (l : List M) (x : M) (h : l.length ≤ cap) :
    modelPush cap l x = lastN cap (l ++ [x]) := by
  unfold modelPush
  by_cases hf : l.length = cap
  · rw [if_pos hf]
    unfold lastN
    have hamt : (l ++ [x]).length - cap = 1 := by
      simp only [List.length_append, List.length_cons, List.length_nil]
      omega
    rw [hamt, List.drop_append_of_le_length (by omega)]
  · rw [if_neg hf]
    exact (lastN_of_le _ _ (by
      simp only [List.length_append, List.length_cons, List.length_nil]
      omega)).symm

lemma lastN_append_lastN {M : Type} (cap : Nat) (s xs : List M) :
    lastN cap (lastN cap s ++ xs) = lastN cap (s ++ xs) := by
  rcases le_or_lt s.length cap with h | h
  · rw [lastN_of_le cap s h]
  · unfold lastN
    have hk : s.length - cap ≤ s.length := by omega
    rw [← List.drop_append_of_le_length hk, List.drop_drop]
    congr 1
    simp only [List.length_drop, List.length_append]
    omega

lemma foldl_modelPush {M : Type} {cap : Nat} (hcap : 0 < cap) :
    ∀ (items acc : List M), acc.length ≤ cap →
    List.foldl (modelPush cap) acc items = lastN cap (acc ++ items) := by
  intro items
  induction items with
  | nil =>
    intro acc h
    rw [List.foldl_nil, List.append_nil, lastN_of_le _ _ h]
  | cons x xs ih =>
    intro acc h
    rw [List.foldl_cons, ih _ (modelPush_length_le hcap acc x h),
      modelPush_eq_lastN hcap acc x h, lastN_append_lastN,
      List.append_assoc, List.singleton_append]

lemma countFull_eq {M : Type} {cap : Nat} (hcap : 0 < cap) :
    ∀ (items acc : List M), acc.length ≤ cap →
    countFull cap acc items =
      acc.length + items.length - min (acc.length + items.length) cap := by
  intro items
  induction items with
  | nil =>
    intro acc h
    simp only [countFull, List.length_nil]
    omega
  | cons x xs ih =>
    intro acc h
    simp only [countFull, List.length_cons]
    rw [ih _ (modelPush_length_le hcap acc x h),
      modelPush_length hcap acc x h]
    by_cases hf : acc.length = cap
    · rw [if_pos hf]
      omega
    · rw [if_neg hf]
      omega

lemma fullFlags_eq {M : Type} {cap : Nat} (hcap : 0 < cap) :
    ∀ (items acc : List M), acc.length ≤ cap →
    fullFlags cap acc items =
      (List.range items.length).map (fun k => decide (acc.length + k < cap)) := by
  intro items
  induction items with
  | nil =>
    intro acc h
    simp [fullFlags]
  | cons x xs ih =>
    intro acc h
    simp only [fullFlags, List.length_cons, List.range_succ_eq_map,
      List.map_cons, List.map_map]
    congr 1
    · rw [← decide_not]
      exact decide_eq_decide.mpr (by omega)
    · rw [ih _ (modelPush_length_le hcap acc x h),
        modelPush_length hcap acc x h]
      apply List.map_congr_left
      intro k hk
      simp only [Function.comp]
      exact decide_eq_decide.mpr (by omega)

/-- Claim C2: pushing `N ≥ C` records into an empty capacity-`C` buffer
with no interleaved pops leaves exactly the `C` most recent records, which
successive pops return oldest-first; the dropped counter equals `N - C`;
and the `k`-th push returned true exactly when the buffer was not yet full
(`k < C`), false exactly when it overwrote an unread record. -/
theorem ringbuffer_drop_oldest_retention {M : Type} [Inhabited M]
    (cap : Nat) (hcap : 0 < cap) (items : List M) (hN : cap ≤ items.length) :
    ((mkRingBuffer M cap).pushAll items).1.drain =
      items.drop (items.length - cap) ∧
    ((mkRingBuffer M cap).pushAll items).1.dropped_count =
      items.length - cap ∧
    ((mkRingBuffer M cap).pushAll items).2 =
      (List.range items.length).map (fun k => decide (k < cap)) := by
  have hrep0 : (mkRingBuffer M cap).Represents [] := by
    refine ⟨by simp [mkRingBuffer], hcap, by simp [mkRingBuffer], rfl,
      by simp [mkRingBuffer], ?_⟩
    intro i hi
    simp at hi
  obtain ⟨hrep, hcap', hdrop, hflags⟩ :=
    RingBuffer.pushAll_spec items (mkRingBuffer M cap) [] hrep0 hcap
  have hmk : (mkRingBuffer M cap).cap = cap := rfl
  have hd0 : (mkRingBuffer M cap).dropped_count = 0 := rfl
  rw [hmk] at hrep hcap' hdrop hflags
  rw [hd0] at hdrop
  refine ⟨?_, ?_, ?_⟩
  · have hfold := foldl_modelPush hcap items [] (by simp)
    rw [List.nil_append] at hfold
    rw [RingBuffer.drain_eq _ _ hrep, hfold]
    rfl
  · rw [hdrop, countFull_eq hcap items [] (by simp)]
    simp only [List.length_nil, Nat.zero_add]
    omega
  · rw [hflags, fullFlags_eq hcap items [] (by simp)]
    apply List.map_congr_left
    intro k hk
    exact decide_eq_decide.mpr (by simp only [List.length_nil]; omega)

/-- Witness for `ringbuffer_drop_oldest_retention` at capacity 2 with
three pushes. -/
theorem ringbuffer_drop_oldest_retention_witness :
    (0 < 2 ∧ 2 ≤ ([10, 20, 30] : List Nat).length) ∧
    ((mkRingBuffer Nat 2).pushAll [10, 20, 30]).1.drain = [20, 30] ∧
    ((mkRingBuffer Nat 2).pushAll [10, 20, 30]).1.dropped_count = 1 ∧
    ((mkRingBuffer Nat 2).pushAll [10, 20, 30]).2 = [true, true, false] :=
  ⟨⟨by decide, by decide⟩,
    ringbuffer_drop_oldest_retention 2 (by decide) [10, 20, 30] (by decide)⟩

/-- One abstract operation on the ring buffer. -/
inductive RBOp (M : Type) where
  | push (x : M)
  | pop

/-- Apply one operation, keeping the state part. -/
def applyOp {M : Type} [Inhabited M] (rb : RingBuffer M) : RBOp M → RingBuffer M
  | .push x => (rb.push x).1
  | .pop => (rb.pop).2

/-- Apply a sequence of push/pop operations. -/
def applyOps {M : Type} [Inhabited M] (rb : RingBuffer M)
    (ops : List (RBOp M)) : RingBuffer M :=
  ops.foldl applyOp rb

/-- The structural invariants of the ring: bounded count, indices within
`[0, capacity)`, array length fixed at capacity. -/
def RingBuffer.WF {M : Type} (rb : RingBuffer M) : Prop :=
  rb.count ≤ rb.cap ∧ rb.head < rb.cap ∧ rb.tail < rb.cap ∧
  rb.buf.length = rb.cap

lemma RingBuffer.WF_push {M : Type} (rb : RingBuffer M) (x : M)
    (h : rb.WF) (hcap : 0 < rb.cap) :
    (rb.push x).1.WF ∧ (rb.push x).1.cap = rb.cap := by
  obtain ⟨h1, h2, h3, h4⟩ := h
  by_cases hfull : rb.count = rb.cap
  · rw [RingBuffer.push_full_eq rb x hfull]
    refine ⟨⟨?_, Nat.mod_lt _ hcap, Nat.mod_lt _ hcap, ?_⟩, rfl⟩
    · show rb.count - 1 + 1 ≤ rb.cap
      omega
    · show (rb.buf.set rb.head x).length = rb.cap
      rw [List.length_set, h4]
  · rw [RingBuffer.push_notfull_eq rb x hfull]
    refine ⟨⟨?_, Nat.mod_lt _ hcap, h3, ?_⟩, rfl⟩
    · show rb.count + 1 ≤ rb.cap
      omega
    · show (rb.buf.set rb.head x).length = rb.cap
      rw [List.length_set, h4]

lemma RingBuffer.WF_pop {M : Type} [Inhabited M] (rb : RingBuffer M)
    (h : rb.WF) (hcap : 0 < rb.cap) :
    (rb.pop).2.WF ∧ (rb.pop).2.cap = rb.cap := by
  obtain ⟨h1, h2, h3, h4⟩ := h
  unfold RingBuffer.pop
  by_cases hz : rb.count = 0
  · rw [if_pos hz]
    exact ⟨⟨h1, h2, h3, h4⟩, rfl⟩
  · rw [if_neg hz]
    refine ⟨⟨?_, h2, Nat.mod_lt _ hcap, h4⟩, rfl⟩
    show rb.count - 1 ≤ rb.cap
    omega

lemma RingBuffer.WF_applyOps {M : Type} [Inhabited M] :
    ∀ (ops : List (RBOp M)) (rb : RingBuffer M), rb.WF → 0 < rb.cap →
    (applyOps rb ops).WF := by
  intro ops
  induction ops with
  | nil =>
    intro rb h hcap
    exact h
  | cons op rest ih =>
    intro rb h hcap
    show (applyOps (applyOp rb op) rest).WF
    cases op with
    | push x =>
      obtain ⟨hw, hc⟩ := RingBuffer.WF_push rb x h hcap
      exact ih _ hw (by rw [show (applyOp rb (RBOp.push x)).cap
        = (rb.push x).1.cap from rfl, hc]; exact hcap)
    | pop =>
      obtain ⟨hw, hc⟩ := RingBuffer.WF_pop rb h hcap
      exact ih _ hw (by rw [show (applyOp rb RBOp.pop).cap
        = (rb.pop).2.cap from rfl, hc]; exact hcap)

/-- Claim C3: every sequence of pushes and pops preserves the invariants
`0 ≤ count ≤ capacity`, `head, tail ∈ [0, capacity)` (indices advance
modulo capacity); and a push performed on a full buffer overwrites the
oldest entry — tail advances by one slot, count stays at capacity, the
new item is stored at the old head — returning false instead of rejecting
the item. -/
theorem ringbuffer_invariants {M : Type} [Inhabited M] (cap : Nat)
    (hcap : 0 < cap) (ops : List (RBOp M)) (rb : RingBuffer M) (x : M)
    (hwf : rb.WF) (hfull : rb.count = rb.cap) :
    (applyOps (mkRingBuffer M cap) ops).WF ∧
    (rb.push x).1.count = rb.cap ∧
    (rb.push x).1.tail = (rb.tail + 1) % rb.cap ∧
    (rb.push x).1.buf.getD rb.head default = x ∧
    (rb.push x).2 = false := by
  have hcappos : 0 < rb.cap := by
    have h3 := hwf.2.2.1
    omega
  refine ⟨?_, ?_, ?_, ?_, ?_⟩
  · refine RingBuffer.WF_applyOps ops (mkRingBuffer M cap)
      ⟨Nat.zero_le _, hcap, hcap, ?_⟩ hcap
    show (List.replicate cap (default : M)).length = cap
    rw [List.length_replicate]
  · rw [RingBuffer.push_full_eq rb x hfull]
    show rb.count - 1 + 1 = rb.cap
    omega
  · rw [RingBuffer.push_full_eq rb x hfull]
  · rw [RingBuffer.push_full_eq rb x hfull]
    show (rb.buf.set rb.head x).getD rb.head default = x
    apply getD_set_self
    rw [hwf.2.2.2]
    exact hwf.2.1
  · rw [RingBuffer.push_full_eq rb x hfull]

/-- Witness for `ringbuffer_invariants`: capacity-1 buffer, three
operations, and a full single-slot buffer being overwritten. -/
theorem ringbuffer_invariants_witness :
    (applyOps (mkRingBuffer Nat 1) [RBOp.push 5, RBOp.pop, RBOp.push 6]).WF ∧
    ((⟨1, [9], 0, 0, 1, 0⟩ : RingBuffer Nat).push 3).1.count = 1 ∧
    ((⟨1, [9], 0, 0, 1, 0⟩ : RingBuffer Nat).push 3).1.tail = (0 + 1) % 1 ∧
    ((⟨1, [9], 0, 0, 1, 0⟩ : RingBuffer Nat).push 3).1.buf.getD 0 default
      = 3 ∧
    ((⟨1, [9], 0, 0, 1, 0⟩ : RingBuffer Nat).push 3).2 = false :=
  ringbuffer_invariants 1 (by decide) [RBOp.push 5, RBOp.pop, RBOp.push 6]
    (⟨1, [9], 0, 0, 1, 0⟩ : RingBuffer Nat) 3
    ⟨by decide, by decide, by decide, by decide⟩ rfl

/-! Native-log hook adapter (`src/loggable.cpp`).

`vprintf_hook` intercepts the ESP-IDF vprintf: it rejects recursive entry
through a thread-local flag, forwards the text to the previously
installed handler, accumulates colorized fragments (a fragment starting
with ESC opens buffering; one containing the reset sequence or ending in
a newline closes it), strips `\\033[0;..m` and `\\033[0m` sequences and a
trailing newline, and hands non-empty lines to
`Sinker::dispatch_from_hook`, which parses the `L (TIME) TAG: MESSAGE`
convention.  The already-`vsnprintf`-formatted fragment is the input of the
model; timestamps come from a `now` parameter standing for
`system_clock::now()` at ingestion.  The C++ strip loops run until no
escape sequence is left; each iteration removes at least one character,
so `length` iterations of fuel reach the same fixpoint. -/

def escStart : List Char := ['\x1b', '[', '0', ';']

def escReset : List Char := ['\x1b', '[', '0', 'm']

/-- Does `pat` occur in `l` starting exactly at index `i`? -/
def subAt (l pat : List Char) (i : Nat) : Bool :=
  (l.drop i).take pat.length == pat

/-- Model of `std::string::find(pat, start)`: first occurrence of `pat` at an
index `≥ start`, or none. -/
def findSubFrom (l pat : List Char) (start : Nat) : Option Nat :=
  (List.range (l.length + 1)).find? (fun i => decide (start ≤ i) && subAt l pat i)

/-- Model of `std::string::find(c, start)` for a single character. -/
def findCharFrom (l : List Char) (c : Char) (start : Nat) : Option Nat :=
  (List.range l.length).find? (fun i => decide (start ≤ i) && (l.getD i ' ' == c))

/-- Model of `std::string::erase(start, len)`. -/
def eraseRange (l : List Char) (start len : Nat) : List Char :=
  l.take start ++ l.drop (start + len)

/-- The `while (true)` loop removing `"\\033[0;...m"` start-color
sequences (find `"\\033[0;"`, find the following `'m'`, erase through
it). -/
def stripColorStarts : Nat → List Char → List Char
  | 0, l => l
  | fuel + 1, l =>
    match findSubFrom l escStart 0 with
    | Option.none => l
    | Option.some sp =>
      match findCharFrom l 'm' sp with
      | Option.none => l
      | Option.some ep => stripColorStarts fuel (eraseRange l sp (ep - sp + 1))

/-- The loop removing `"\\033[0m"` reset sequences (erase 4 chars). -/
def stripColorEnds : Nat → List Char → List Char
  | 0, l => l
  | fuel + 1, l =>
    match findSubFrom l escReset 0 with
    | Option.none => l
    | Option.some rp => stripColorEnds fuel (eraseRange l rp 4)

/-- Strip start sequences, then reset sequences, then one trailing
newline — the cleanup both the buffered and the single-part paths of
`vprintf_hook` perform before dispatching. -/
def stripLine (l : List Char) : List Char :=
  let l1 := stripColorStarts l.length l
  let l2 := stripColorEnds l1.length l1
  if l2.getLast? = some '\n' then l2.dropLast else l2

/-- The structural guard of the parser in `dispatch_from_hook`:
`message.length() > 4 && message[1] == ' ' && message[0] ∈ EWIDV`. -/
def headerCond (l : List Char) : Bool :=
  decide (l.length > 4) && (l.getD 1 ' ' == ' ') &&
    (l.getD 0 ' ' == 'E' || l.getD 0 ' ' == 'W' || l.getD 0 ' ' == 'I' ||
     l.getD 0 ' ' == 'D' || l.getD 0 ' ' == 'V')

/-- The `switch (message[0])` assigning the level (initialized to
`Info`). -/
def headerLevel (l : List Char) : LogLevel :=
  if l.getD 0 ' ' == 'E' then .error
  else if l.getD 0 ' ' == 'W' then .warning
  else if l.getD 0 ' ' == 'I' then .info
  else if l.getD 0 ' ' == 'D' then .debug
  else if l.getD 0 ' ' == 'V' then .verbose
  else .info

/-- Position `message.find('(')`. -/
def tagStartOf (l : List Char) : Option Nat := findCharFrom l '(' 0

/-- Position `message.find(')', tag_start)` (npos propagates as `none`). -/
def tagEndOf (l : List Char) : Option Nat :=
  match tagStartOf l with
  | Option.none => Option.none
  | Option.some i => findCharFrom l ')' i

/-- Position `message.find(':', tag_end)` (npos propagates as `none`). -/
def payloadStartOf (l : List Char) : Option Nat :=
  match tagEndOf l with
  | Option.none => Option.none
  | Option.some i => findCharFrom l ':' i

/-- Whether the structural parse condition
`tag_end != npos && payload_start != npos && tag_end + 1 < length`
fails, sending the whole message into the payload. -/
def structFail (l : List Char) : Bool :=
  match tagEndOf l, payloadStartOf l with
  | Option.some te, Option.some _ => !decide (te + 1 < l.length)
  | _, _ => true

/-- Method `Sinker::dispatch_from_hook`: parse one reconstructed line into the
single `LogMessage` that is then handed to `_dispatch_internal`, with
the current wall-clock time `now` as timestamp. -/
def dispatch_from_hook (now : Nat) (message : List Char) : LogMessage :=
  if headerCond message then
    match tagEndOf message, payloadStartOf message with
    | Option.some te, Option.some ps =>
      if te + 1 < message.length then
        let tag := if message.getD (te + 1) ' ' == ' ' && decide (te + 2 < ps)
          then (message.drop (te + 2)).take (ps - (te + 2)) else []
        let payload := if ps + 2 < message.length
          then message.drop (ps + 2) else []
        ⟨now, headerLevel message, tag, payload⟩
      else ⟨now, headerLevel message, [], message⟩
    | _, _ => ⟨now, headerLevel message, [], message⟩
  else ⟨now, LogLevel.info, [], message⟩

/-- Observable actions of one `vprintf_hook` invocation, in order. -/
inductive HookEvent where
  | forward (raw : List Char)
  | ingest (msg : LogMessage)
deriving DecidableEq, Repr

/-- The thread-local fragment accumulator (`ThreadBufferState`). -/
structure ThreadBufferState where
  log_buffer : List Char
  buffering_log : Bool
deriving DecidableEq, Repr

/-- Result of one hook call: emitted events, new accumulator state, and
the `int` return value. -/
structure HookResult where
  events : List HookEvent
  st : ThreadBufferState
  ret : Int
deriving DecidableEq, Repr

/-- Function `vprintf_hook` from `src/loggable.cpp`.  `is_logging` is the
thread-local recursion flag at entry; `has_original` tells whether a
previous vprintf handler is installed; `raw` is the already-formatted
fragment (the model takes `vsnprintf` to have succeeded). -/
def vprintf_hook (is_logging : Bool) (has_original : Bool) (now : Nat)
    (st : ThreadBufferState) (raw : List Char) : HookResult :=
  if is_logging then ⟨[], st, 0⟩
  else
    let fwd : List HookEvent :=
      if has_original then [HookEvent.forward raw] else []
    let formatted := raw
    let is_color_start :=
      decide (formatted.length ≥ 2) && (formatted.getD 0 ' ' == '\x1b')
    let is_color_end := (findSubFrom formatted escReset 0).isSome ||
      (decide (formatted.length > 0) && (formatted.getLast? == some '\n'))
    if st.buffering_log && is_color_end then
      let complete := stripLine (st.log_buffer ++ formatted)
      let evs := if complete = [] then []
        else [HookEvent.ingest (dispatch_from_hook now complete)]
      ⟨fwd ++ evs, ⟨[], false⟩, (formatted.length : Int)⟩
    else if st.buffering_log then
      ⟨fwd, ⟨st.log_buffer ++ formatted, true⟩, (formatted.length : Int)⟩
    else if is_color_start then
      ⟨fwd, ⟨formatted, true⟩, (formatted.length : Int)⟩
    else
      let msg := stripLine formatted
      let evs := if msg = [] then []
        else [HookEvent.ingest (dispatch_from_hook now msg)]
      ⟨fwd ++ evs, st, (formatted.length : Int)⟩

/-- Feed a sequence of fragments through non-recursive hook calls on one
thread, collecting all events. -/
def runHook (has_original : Bool) (now : Nat) :
    ThreadBufferState → List (List Char) → List HookEvent × ThreadBufferState
  | st, [] => ([], st)
  | st, f :: fs =>
    let r := vprintf_hook false has_original now st f
    let rest := runHook has_original now r.st fs
    (r.events ++ rest.1, rest.2)

/-- The records ingested into the hub among a list of hook events. -/
def ingested (evs : List HookEvent) : List LogMessage :=
  evs.filterMap (fun e => match e with
    | HookEvent.ingest m => Option.some m
    | _ => Option.none)

/-- Claim C6 counterexample: on the literal fragments
`"E (1234) TAG: Hello, "` then `"world!\n"` (no ANSI color escapes) the
hook ingests TWO records — the first fragment has no escape so buffering
never starts and each fragment is dispatched on its own — and neither
record carries message `"Hello, world!"`; moreover both timestamps are
the ingestion clock, not 1234. -/
theorem hook_fragments_cex :
    ingested (runHook true 7 ⟨[], false⟩
      ["E (1234) TAG: Hello, ".toList, "world!\n".toList]).1 =
      [⟨7, LogLevel.error, "TAG".toList, "Hello, ".toList⟩,
       ⟨7, LogLevel.info, [], "world!".toList⟩] ∧
    (ingested (runHook true 7 ⟨[], false⟩
      ["E (1234) TAG: Hello, ".toList, "world!\n".toList]).1).length ≠ 1 := by
  constructor
  · decide
  · decide

/-- Claim C6 (amended): when the two fragments carry the ESP-IDF ANSI
coloring — the first beginning with the start-color escape
`"\x1b[0;31m"`, the later one ending with the reset escape and newline —
exactly one record is ingested, with severity `Error`, tag `"TAG"` and
message `"Hello, world!"`; its timestamp is the ingestion-time clock
(here 7): the `1234` field is skipped by the parser, not used. -/
theorem hook_fragments_buffered :
    ingested (runHook true 7 ⟨[], false⟩
      ["\x1b[0;31mE (1234) TAG: Hello, ".toList,
       "world!\x1b[0m\n".toList]).1 =
      [⟨7, LogLevel.error, "TAG".toList, "Hello, world!".toList⟩] := by
  decide

/-- Claim C7 counterexample: `"E abcd"` does not match the
`LEVEL (TIMESTAMP) TAG: MESSAGE` pattern, yet its record carries
severity `Error` — the level letter is honored before the structural
parse — not the default severity; and `"E (123)x:yz"` (no space after
the parenthesis) gets payload `"z"`, not the whole line. -/
theorem hook_parse_fallback_cex :
    dispatch_from_hook 0 "E abcd".toList =
      ⟨0, LogLevel.error, [], "E abcd".toList⟩ ∧
    dispatch_from_hook 0 "E abcd".toList ≠
      ⟨0, LogLevel.info, [], "E abcd".toList⟩ ∧
    dispatch_from_hook 0 "E (123)x:yz".toList =
      ⟨0, LogLevel.error, [], "z".toList⟩ := by
  refine ⟨by decide, by decide, by decide⟩

/-- Claim C7 (amended): `dispatch_from_hook` is total — every line yields
exactly one record, the single result of the function.  A line failing even
the leading level-letter test is ingested whole: payload is the entire
line, tag empty, severity the default `Info`.  A line passing the
level-letter test but failing the structural parse (no `')'`, no `':'`
after it, or ending right after `')'`) is also ingested whole with an
empty tag, but its severity comes from the level letter. -/
theorem hook_parse_fallback (now : Nat) (l : List Char) :
    (headerCond l = false →
      dispatch_from_hook now l = ⟨now, LogLevel.info, [], l⟩) ∧
    (headerCond l = true → structFail l = true →
      dispatch_from_hook now l = ⟨now, headerLevel l, [], l⟩) := by
  constructor
  · intro h
    simp [dispatch_from_hook, h]
  · intro h hs
    rcases hte : tagEndOf l with _ | te
    · simp [dispatch_from_hook, h, hte]
    · rcases hps : payloadStartOf l with _ | ps
      · simp [dispatch_from_hook, h, hte, hps]
      · unfold structFail at hs
        rw [hte, hps] at hs
        simp at hs
        simp [dispatch_from_hook, h, hte, hps]
        intro hcontra
        omega

/-- Witness for `hook_parse_fallback`: a fully unmatched line and a line
with a level letter but no parenthesized timestamp. -/
theorem hook_parse_fallback_witness :
    dispatch_from_hook 0 "hello".toList =
      ⟨0, LogLevel.info, [], "hello".toList⟩ ∧
    dispatch_from_hook 0 "E abc".toList =
      ⟨0, headerLevel "E abc".toList, [], "E abc".toList⟩ :=
  ⟨(hook_parse_fallback 0 _).1 (by decide),
   (hook_parse_fallback 0 _).2 (by decide) (by decide)⟩

/-- Claim C8: a hook invocation with the thread-local `is_logging` flag
already set returns 0 immediately, emits no event and leaves the
accumulator untouched; and for every non-recursive invocation the event list
is the forward of the original fragment to the prior handler (when one
is installed) followed only by ingest events — forwarding precedes any
re-emission through the hub. -/
theorem hook_recursion_guard_and_forward_order (orig : Bool) (now : Nat)
    (st : ThreadBufferState) (raw : List Char) :
    vprintf_hook true orig now st raw = ⟨[], st, 0⟩ ∧
    ∃ recs : List LogMessage,
      (vprintf_hook false orig now st raw).events =
        (if orig then [HookEvent.forward raw] else []) ++
          recs.map HookEvent.ingest := by
  refine ⟨rfl, ?_⟩
  by_cases h1 : st.buffering_log = true
  · by_cases h2 : (findSubFrom raw escReset 0).isSome = true ∨
        (0 < raw.length ∧ raw.getLast? = some '\n')
    · by_cases h3 : stripLine (st.log_buffer ++ raw) = []
      · exact ⟨[], by simp [vprintf_hook, h1, h2, h3]⟩
      · exact ⟨[dispatch_from_hook now (stripLine (st.log_buffer ++ raw))],
          by simp [vprintf_hook, h1, h2, h3]⟩
    · exact ⟨[], by simp [vprintf_hook, h1, h2]⟩
  · by_cases h4 : 2 ≤ raw.length ∧ raw[0]?.getD ' ' = '\x1b'
    · exact ⟨[], by simp [vprintf_hook, h1, h4]⟩
    · by_cases h5 : stripLine raw = []
      · exact ⟨[], by simp [vprintf_hook, h1, h4, h5]⟩
      · exact ⟨[dispatch_from_hook now (stripLine raw)],
          by simp [vprintf_hook, h1, h4, h5]⟩

/-! Engine lifecycle (async mode).

`include/loggable.hpp` declares `Sinker::init`, `Sinker::shutdown` and
`Sinker::get_metrics` together with the async state (`_queue` of
capacity `QUEUE_CAPACITY = 64`, atomic `_running` and
`_shutdown_requested`, task handle), but their definitions are not among
the source files of the repository; they are modelled from the spec
(sections 3 and 4.2). -/

/-- Struct `SinkerMetrics` from `include/loggable.hpp`. -/
structure SinkerMetrics where
  dropped_count : Nat
  queued_count : Nat
  capacity : Nat
  is_running : Bool
deriving DecidableEq, Repr

/-- The async-relevant fields of the `Sinker` singleton: `_running`,
`_shutdown_requested`, `_queue` (present only in async mode), `_task`. -/
structure EngineState where
  running : Bool
  shutdown_requested : Bool
  queue : Option (RingBuffer LogMessage)
  worker : Bool
deriving DecidableEq, Repr

/-- Constant `Sinker::QUEUE_CAPACITY` (`include/loggable.hpp`). -/
def QUEUE_CAPACITY : Nat := 64

/-- Modelled from the spec: `Sinker::init` (its definition is missing
from the source files; only the declaration in `include/loggable.hpp`
is present).  Per spec 4.2 it is a no-op without a registered OS
backend or when already running (compare-and-swap guard); on success it
allocates the fixed-capacity queue, spawns the worker and flips the
running flag; if task creation fails the queue is released and the
running flag rolled back, leaving valid synchronous-mode state.
`backend_present` and `task_create_ok` stand for the relevant
behavior. -/
def Sinker.init (backend_present task_create_ok : Bool)
    (s : EngineState) : EngineState :=
  if !backend_present then s
  else if s.running then s
  else if task_create_ok then
    { running := true, shutdown_requested := false,
      queue := some (mkRingBuffer LogMessage QUEUE_CAPACITY), worker := true }
  else { s with queue := none, running := false }

/-- Modelled from the spec: `Sinker::shutdown` (definition missing from
the source files).  Per spec 4.2 it is a no-op if not running; otherwise
it sets the shutdown-requested flag, drains via a bounded flush, clears
the running flag and releases the queue, the worker exiting. -/
def Sinker.shutdown (s : EngineState) : EngineState :=
  if !s.running then s
  else { running := false, shutdown_requested := true,
         queue := none, worker := false }

/-- Modelled from the spec: `Sinker::get_metrics` (definition missing
from the source files): a snapshot of dropped count, queued count,
capacity and the running flag. -/
def Sinker.get_metrics (s : EngineState) : SinkerMetrics :=
  match s.queue with
  | Option.some q => ⟨q.dropped_count, q.count, q.cap, s.running⟩
  | Option.none => ⟨0, 0, 0, s.running⟩

/-- Claim C9: calling `shutdown` twice in a row, or `init` twice in a
row without an intervening `shutdown`, is a no-op on the second call:
the engine state (running flag, queue, worker) and the metrics are left
exactly as after the first call. -/
theorem init_shutdown_idempotent (b t : Bool) (s : EngineState) :
    Sinker.init b t (Sinker.init b t s) = Sinker.init b t s ∧
    Sinker.shutdown (Sinker.shutdown s) = Sinker.shutdown s ∧
    Sinker.get_metrics (Sinker.init b t (Sinker.init b t s)) =
      Sinker.get_metrics (Sinker.init b t s) ∧
    Sinker.get_metrics (Sinker.shutdown (Sinker.shutdown s)) =
      Sinker.get_metrics (Sinker.shutdown s) := by
  have h1 : Sinker.init b t (Sinker.init b t s) = Sinker.init b t s := by
    obtain ⟨r, sr, q, w⟩ := s
    cases b <;> cases t <;> cases r <;> simp [Sinker.init]
  have h2 : Sinker.shutdown (Sinker.shutdown s) = Sinker.shutdown s := by
    obtain ⟨r, sr, q, w⟩ := s
    cases r <;> simp [Sinker.shutdown]
  exact ⟨h1, h2, congrArg _ h1, congrArg _ h2⟩

end Loggable
